import Mathlib

/-!
# Verification of the self-updating RAG system core

A shallow embedding, in Lean 4, of the core of the `self-updating-rag-system`
repository (Python): the chunker, the versioned document store (`rag/db.py`
over SQLite), the vector-index adapter (`rag/index.py`), the ingestion engine
(`rag/ingest.py`), the chunk-level diff engine (`rag/diffing.py`) and the
retrieval confidence gate of the `/chat` endpoint (`app.py`).

Modelling conventions:
* Python text that the code slices by character position is modelled as
  `List Char` (`Str` below); identifiers that are only compared for equality
  (paths, file names) stay `String`.
* SQLite tables are lists of rows kept in insertion (rowid) order;
  `AUTOINCREMENT` keys are modelled by `next_doc_id` / `next_chunk_id`
  counters starting at 1, as SQLite does.  `ORDER BY` is a stable sort, which
  matches SQLite's observed behaviour of returning equal-key rows in rowid
  order for these queries.
* Python dicts (`{c.chunk_index: c for c in rows}`, `{d.path: d ...}`,
  `{d.doc_id: ... }`) are association lists in key-insertion order where a
  repeated key overwrites the stored value in place — exactly Python's dict
  semantics.
* The SHA-256 digest (`sha256_text`) is used by the code only through
  equality tests, so it is modelled as an explicit function parameter
  `fp : Str → Str` of the ingestion engine; concrete scenarios instantiate it
  with the (injective) identity.
* `read_text` opens a file with `errors="ignore"`, so decoding never fails,
  but the `open` call itself may raise `OSError`; a corpus file is therefore
  modelled as carrying `Except Unit Str`.  `ingest_docs` has no exception
  handler, so a raised error is modelled by the monadic `Except` short
  circuit.
* The `while` loop of `chunk_text` is modelled with explicit fuel
  `length + 1`, which is enough for every terminating execution of the
  Python loop (whenever the window advances, it advances by at least one
  character); `none` therefore means the Python loop does not terminate.
* Floating-point relevance scores are modelled as exact rationals; the
  gate's arithmetic (`max`, subtraction, comparison) is order-preserving, and
  none of the claims depend on rounding behaviour.
* Wall-clock fields (`seconds`) and the `difflib` unified-diff text are not
  modelled; no claim mentions them (the diff claims are about the category
  counts, which the code computes itself).
-/

namespace SURag

/-- Character-list text, the unit Python slices by position. -/
abbrev Str := List Char

/-! ## Chunker (`rag/ingest.py`, `chunk_text`) -/

/-- Python's `str.strip()` on the leading/trailing whitespace of a text
(ASCII whitespace; the claims only exercise ASCII). -/
def pyStrip (l : Str) : Str :=
  ((l.dropWhile Char.isWhitespace).reverse.dropWhile Char.isWhitespace).reverse

/-- The `while i < n` loop of `chunk_text`, with explicit fuel.  State:
current start `i` and accumulated windows `out`.  One fuel unit is one loop
iteration; `none` means the fuel ran out, i.e. the Python loop still runs.
`j - o` with truncated `Nat` subtraction is Python's `max(0, j - overlap)`. -/
def chunkLoop (c o n : Nat) (t : Str) : Nat → Nat → List Str → Option (List Str)
  | 0, _, _ => none
  | fuel + 1, i, out =>
    if i < n then
      let j := min n (i + c)
      let out' := out ++ [(t.drop i).take (j - i)]
      if j = n then some out'
      else chunkLoop c o n t fuel (j - o) out'
    else some out

/-- Model of `chunk_text(text, chunk_chars, overlap_chars)`: strip, then slide a
window.  Fuel `n + 1` covers every terminating run of the Python loop, since
a terminating loop body strictly advances `i` and each window emits at most
once per start position; `none` records that the Python loop diverges. -/
def chunk_text (text : Str) (chunk_chars overlap_chars : Nat) : Option (List Str) :=
  let t := pyStrip text
  if t.isEmpty then some []
  else chunkLoop chunk_chars overlap_chars t.length t (t.length + 1) 0 []

/-! ## Vector index adapter (`rag/index.py`) -/

/-- The state of `VectorIndex`: the persisted row-to-chunk mapping (with `-1`
as the tombstone sentinel) and the FAISS backend's row count (`ntotal`).
The vectors themselves are opaque to every claim. -/
structure VectorState where
  row_to_chunk : List Int
  ntotal : Nat
deriving Repr, DecidableEq

/-- Model of `VectorIndex._load_or_create`: if both persisted files exist, load both
as they are — the code performs no consistency check of any kind; otherwise
start from a fresh empty index.  `idx_file` is the persisted backend's row
count, `map_file` the persisted mapping. -/
def load_or_create (idx_file : Option Nat) (map_file : Option (List Int)) : VectorState :=
  match idx_file, map_file with
  | some n, some m => { row_to_chunk := m, ntotal := n }
  | some _, none => { row_to_chunk := [], ntotal := 0 }
  | none, _ => { row_to_chunk := [], ntotal := 0 }

/-- Modelled from the spec: the load path the specification requires — "the
restart path must detect [...] a mismatch (at minimum: mapping length must
equal backend row count; if not, fail fast)".  Used only to compare against
the source's `load_or_create`, which has no such check. -/
def load_or_create_spec (idx_file : Option Nat) (map_file : Option (List Int)) :
    Except Unit VectorState :=
  match idx_file, map_file with
  | some n, some m =>
    if m.length = n then .ok { row_to_chunk := m, ntotal := n } else .error ()
  | _, _ => .ok { row_to_chunk := [], ntotal := 0 }

/-- Model of `VectorIndex.add_vectors(vectors, chunk_ids)`: rows are assigned
contiguously in append order; `nvecs` is `len(vectors)`.  Returns the new
state and `list(range(start, start + len(chunk_ids)))`. -/
def add_vectors (ix : VectorState) (nvecs : Nat) (chunk_ids : List Int) :
    VectorState × List Nat :=
  let start := ix.row_to_chunk.length
  ({ row_to_chunk := ix.row_to_chunk ++ chunk_ids, ntotal := ix.ntotal + nvecs },
   List.range' start chunk_ids.length)

/-- Model of `VectorIndex.logical_delete_chunk_ids`: mark every mapping entry whose
chunk id is in the given list with the tombstone sentinel `-1`; an empty
list is an early return. -/
def logical_delete_chunk_ids (ix : VectorState) (deleted_chunk_ids : List Int) :
    VectorState :=
  if deleted_chunk_ids = [] then ix
  else { ix with
    row_to_chunk := ix.row_to_chunk.map fun cid =>
      if cid ∈ deleted_chunk_ids then -1 else cid }

/-! ## Generic helpers: stable sorting and Python dicts -/

/-- Stable insertion of `a` in front of the first element `b` with
`le a b = true`.  Together with `insertionSortB` this is a stable sort:
equal elements keep their original relative order. -/
def orderedInsertB (le : α → α → Bool) (a : α) : List α → List α
  | [] => [a]
  | b :: l => if le a b then a :: b :: l else b :: orderedInsertB le a l

/-- Stable insertion sort by a boolean comparison, used to model SQLite's
`ORDER BY` (stable on equal keys in rowid order) and Python's stable
`list.sort`. -/
def insertionSortB (le : α → α → Bool) : List α → List α
  | [] => []
  | a :: l => orderedInsertB le a (insertionSortB le l)

/-- Lexicographic order on character lists: SQLite's `ORDER BY path` memcmp
order on UTF-8, which coincides with code-point lexicographic order. -/
def lexLe : List Char → List Char → Bool
  | [], _ => true
  | _ :: _, [] => false
  | a :: as, b :: bs => if a = b then lexLe as bs else decide (a < b)

/-- Model of `d[k] = v` on a Python dict as an association list: overwrite in place if
the key is present (keeping its position), else append. -/
def assocUpd [DecidableEq κ] (l : List (κ × α)) (k : κ) (v : α) : List (κ × α) :=
  if l.any (fun p => p.1 = k) then
    l.map (fun p => if p.1 = k then (k, v) else p)
  else l ++ [(k, v)]

/-- Python `d.get(k)`: keys are unique in an `assocUpd`-built dict, so the
first match is the binding. -/
def dictGet [DecidableEq κ] (l : List (κ × α)) (k : κ) : Option α :=
  (l.find? (fun p => p.1 = k)).map (·.2)

/-- Model of `{key x: val x for x in rows}`: fold of `assocUpd`, so a later row with
the same key overwrites the earlier one (Python dict-comprehension
semantics). -/
def buildDict [DecidableEq κ] (key : β → κ) (val : β → α) (rows : List β) :
    List (κ × α) :=
  rows.foldl (fun d x => assocUpd d (key x) (val x)) []

/-! ## Versioned document store (`rag/db.py`) -/

/-- A row of the `documents` table.  `version` is the active version column;
`max_version` is nullable (legacy databases), hence `Option`. -/
structure DocRow where
  doc_id : Nat
  path : String
  doc_hash : Str
  version : Nat
  max_version : Option Nat
  updated_at : Nat
deriving Repr, DecidableEq

/-- A row of the `chunks` table. -/
structure ChunkRow where
  chunk_id : Nat
  doc_id : Nat
  chunk_index : Nat
  chunk_hash : Str
  text : Str
  version : Nat
  updated_at : Nat
deriving Repr, DecidableEq

/-- The SQLite database: rows in rowid (insertion) order, plus the
`AUTOINCREMENT` counters (SQLite assigns ids from 1). -/
structure DBState where
  documents : List DocRow
  chunks : List ChunkRow
  vectors : List (Nat × Nat)
  next_doc_id : Nat
  next_chunk_id : Nat
deriving Repr, DecidableEq

/-- The freshly initialised database. -/
def DBState.empty : DBState := ⟨[], [], [], 1, 1⟩

/-- Model of `DB.get_document_by_path`: `SELECT * FROM documents WHERE path=?`, first
row in storage order (the path column is `UNIQUE`). -/
def get_document_by_path (db : DBState) (path : String) : Option DocRow :=
  db.documents.find? (fun d => d.path = path)

/-- Model of `DB.upsert_document`: update every row at this path if one exists, else
insert a fresh row; returns the row subsequently visible at this path. -/
def upsert_document (db : DBState) (path : String) (doc_hash : Str)
    (version max_version updated_at : Nat) : DBState × DocRow :=
  match db.documents.find? (fun d => d.path = path) with
  | some d0 =>
    let d' : DocRow :=
      { d0 with doc_hash := doc_hash, version := version,
                max_version := some max_version, updated_at := updated_at }
    ({ db with documents := db.documents.map fun d =>
        if d.path = path then
          { d with doc_hash := doc_hash, version := version,
                   max_version := some max_version, updated_at := updated_at }
        else d },
     d')
  | none =>
    let d : DocRow := ⟨db.next_doc_id, path, doc_hash, version, some max_version, updated_at⟩
    ({ db with documents := db.documents ++ [d], next_doc_id := db.next_doc_id + 1 }, d)

/-- Model of `DB.set_active_version`: `UPDATE documents SET version=?, updated_at=?
WHERE path=?`, then return the row at the path (if any). -/
def set_active_version (db : DBState) (path : String) (version updated_at : Nat) :
    DBState × Option DocRow :=
  let db' : DBState :=
    { db with documents := db.documents.map fun d =>
        if d.path = path then { d with version := version, updated_at := updated_at }
        else d }
  (db', get_document_by_path db' path)

/-- Model of `DB.list_documents`: `ORDER BY path`. -/
def list_documents (db : DBState) : List DocRow :=
  insertionSortB (fun a b => lexLe a.path.data b.path.data) db.documents

/-- Model of `DB.list_chunks_for_doc`: all versions, `ORDER BY chunk_index` (stable on
equal ordinals in rowid order). -/
def list_chunks_for_doc (db : DBState) (doc_id : Nat) : List ChunkRow :=
  insertionSortB (fun a b => a.chunk_index ≤ b.chunk_index)
    (db.chunks.filter (fun c => c.doc_id = doc_id))

/-- Model of `DB.list_chunks_for_doc_version`: one version, `ORDER BY chunk_index`. -/
def list_chunks_for_doc_version (db : DBState) (doc_id version : Nat) : List ChunkRow :=
  insertionSortB (fun a b => a.chunk_index ≤ b.chunk_index)
    (db.chunks.filter (fun c => c.doc_id = doc_id ∧ c.version = version))

/-- Model of `DB.insert_chunk`: always a fresh row; returns the assigned chunk id. -/
def insert_chunk (db : DBState) (doc_id chunk_index : Nat) (chunk_hash text : Str)
    (version updated_at : Nat) : DBState × Nat :=
  let row : ChunkRow :=
    ⟨db.next_chunk_id, doc_id, chunk_index, chunk_hash, text, version, updated_at⟩
  ({ db with chunks := db.chunks ++ [row], next_chunk_id := db.next_chunk_id + 1 },
   db.next_chunk_id)

/-- Model of `DB.set_vector_row`: `INSERT OR REPLACE` keyed on `chunk_id`.  The table
is write-only in the claimed code paths, so row order after replacement is
irrelevant; replacement in place is the simplest faithful model. -/
def set_vector_row (db : DBState) (chunk_id vector_row : Nat) : DBState :=
  if db.vectors.any (fun p => p.1 = chunk_id) then
    { db with vectors := db.vectors.map fun p =>
        if p.1 = chunk_id then (chunk_id, vector_row) else p }
  else { db with vectors := db.vectors ++ [(chunk_id, vector_row)] }

/-- Model of `DB.get_chunk_by_id`: `SELECT * FROM chunks WHERE chunk_id=?`. -/
def get_chunk_by_id (db : DBState) (chunk_id : Nat) : Option ChunkRow :=
  db.chunks.find? (fun c => c.chunk_id = chunk_id)

/-- Model of `DB.count_chunks`. -/
def count_chunks (db : DBState) : Nat := db.chunks.length

/-! ## Retrieval gate of the `/chat` endpoint (`app.py`, `chat`) -/

/-- One entry of the `contexts` list built in `chat`. -/
structure Context where
  source_path : String
  chunk_id : Nat
  score : ℚ
  text : Str
deriving Repr, DecidableEq

/-- Model of `docs_map = {d.doc_id: {"path": d.path, "active_version": d.version} for
d in db.list_documents()}`, as a lookup function: the last occurrence of a
doc id in the listed order wins (Python dict semantics). -/
def docs_map (db : DBState) (doc_id : Nat) : Option (String × Nat) :=
  ((list_documents db).reverse.find? (fun d => d.doc_id = doc_id)).map
    (fun d => (d.path, d.version))

/-- The hit-resolution loop of `chat`: resolve each `(chunk_id, score)` hit
through the store, drop unknown chunks, drop chunks of unknown documents and
drop any chunk whose version is not the owning document's active version. -/
def resolve_hits (db : DBState) (hits : List (Nat × ℚ)) : List Context :=
  hits.filterMap fun h =>
    match get_chunk_by_id db h.1 with
    | none => none
    | some crow =>
      match docs_map db crow.doc_id with
      | none => none
      | some meta =>
        if crow.version = meta.2 then
          some ⟨meta.1, h.1, h.2, crow.text⟩
        else none

/-- Model of `contexts.sort(key=score, reverse=True)`: Python's stable descending
sort. -/
def sortByScoreDesc (cs : List Context) : List Context :=
  insertionSortB (fun a b => b.score ≤ a.score) cs

/-- The confidence gate of `chat` (lines 215-223): empty input or best score
below the floor yields no contexts; otherwise keep scores at or above
`max(τ_min, best - window)` and truncate to the first `max_contexts`
entries of the (descending-sorted) list. -/
def gate (contexts : List Context) (min_relevance_score score_window : ℚ)
    (max_contexts : Nat) : List Context :=
  match contexts with
  | [] => []
  | best :: _ =>
    if best.score < min_relevance_score then []
    else
      ((contexts.filter fun c =>
          max min_relevance_score (best.score - score_window) ≤ c.score).take
        max_contexts)

/-- The full context pipeline of `chat` for a query whose index search
returned `hits`. -/
def chat_contexts (db : DBState) (hits : List (Nat × ℚ))
    (min_relevance_score score_window : ℚ) (max_contexts : Nat) : List Context :=
  gate (sortByScoreDesc (resolve_hits db hits)) min_relevance_score score_window
    max_contexts

/-- The snippet of a citation: strip, replace newlines by spaces, truncate to
220 characters with the code's literal ellipsis bytes. -/
def snippet_of (t : Str) : Str :=
  let s := (pyStrip t).map (fun ch => if ch = '\n' then ' ' else ch)
  if 220 < s.length then s.take 220 ++ "â€¦".data else s

/-- A citation row of the `/chat` response. -/
structure Citation where
  source_path : String
  chunk_id : Nat
  score : ℚ
  snippet : Str
deriving Repr, DecidableEq

/-- Citations are built one-for-one from the gated contexts. -/
def citations_of (cs : List Context) : List Citation :=
  cs.map fun c => ⟨c.source_path, c.chunk_id, c.score, snippet_of c.text⟩

/-! ## Diff engine (`rag/diffing.py`) -/

/-- Per-chunk category assigned by `diff_doc_versions`. -/
inductive DStatus
  | added
  | removed
  | unchanged
  | changed
deriving Repr, DecidableEq

/-- The summary counters of a diff report. -/
structure DiffSummary where
  added : Nat
  changed : Nat
  removed : Nat
  unchanged : Nat
  total : Nat
deriving Repr, DecidableEq

/-- Model of `_chunks_by_index`: `{r.chunk_index: r.text}` over one version's rows. -/
def chunks_by_index (db : DBState) (doc_id version : Nat) : List (Nat × Str) :=
  buildDict (fun r => r.chunk_index) (fun r => r.text)
    (list_chunks_for_doc_version db doc_id version)

/-- Classification of one ordinal, exactly the `if` chain of the source. -/
def classify_idx (a b : List (Nat × Str)) (idx : Nat) : DStatus :=
  match dictGet a idx, dictGet b idx with
  | none, _ => .added
  | some _, none => .removed
  | some x, some y => if x = y then .unchanged else .changed

/-- Model of `diff_doc_versions` without the `difflib` text payload: the per-ordinal
statuses in ascending ordinal order, and the summary counters.  `none` is
the `{"error": "Document not found"}` response. -/
def diff_doc_versions (db : DBState) (path : String) (from_version to_version : Nat) :
    Option (DiffSummary × List (Nat × DStatus)) :=
  match get_document_by_path db path with
  | none => none
  | some doc =>
    let a := chunks_by_index db doc.doc_id from_version
    let b := chunks_by_index db doc.doc_id to_version
    let all_idx :=
      insertionSortB (fun x y => x ≤ y) ((a.map Prod.fst ++ b.map Prod.fst).dedup)
    let per := all_idx.map fun idx => (idx, classify_idx a b idx)
    (some
      ({ added := per.countP (fun p => p.2 = .added),
         changed := per.countP (fun p => p.2 = .changed),
         removed := per.countP (fun p => p.2 = .removed),
         unchanged := per.countP (fun p => p.2 = .unchanged),
         total := all_idx.length },
       per))

/-! ## Ingestion engine (`rag/ingest.py`, `ingest_docs`) -/

/-- How an ingestion pass can abort: an `OSError` escaping `read_text`
(`ingest_docs` has no exception handler), or a non-terminating
`chunk_text` loop. -/
inductive IngestErr
  | ioError
  | diverge
deriving Repr, DecidableEq

/-- One file produced by `os.walk` over the corpus, in walk order: its base
name (for the eligibility tests), its relative path (the document key) and
the outcome of `read_text` on it. -/
structure FileEntry where
  fn : String
  rel : String
  read : Except Unit Str
deriving Repr

/-- The counter block of `ingest_docs` (the wall-clock `seconds` field is
not modelled). -/
structure Summary where
  docs_scanned : Nat
  docs_changed : Nat
  docs_unchanged : Nat
  chunks_added : Nat
  chunks_updated : Nat
  chunks_deactivated : Nat
  embed_calls : Nat
deriving Repr, DecidableEq

/-- The all-zero summary the pass starts from. -/
def Summary.zero : Summary := ⟨0, 0, 0, 0, 0, 0, 0⟩

/-- The mutable state threaded through the pass: counters, database, vector
index, and the trace of embedding batches (one list of texts per
`embedder.embed_texts` call, in call order). -/
structure IngestSt where
  summary : Summary
  db : DBState
  ix : VectorState
  batches : List (List Str)
deriving Repr

/-- A file takes part in the pass iff its name is not hidden and has a
text-like extension (`ingest_docs` lines 52-55). -/
def eligible (f : FileEntry) : Bool :=
  !(".".data.isPrefixOf f.fn.data) &&
    ((".md".data.isSuffixOf f.fn.data) || (".txt".data.isSuffixOf f.fn.data))

/-- Python's `int(m or v)` on a nullable column: `None` and `0` are falsy. -/
def pyOrNat (m : Option Nat) (v : Nat) : Nat :=
  match m with
  | none => v
  | some k => if k = 0 then v else k

/-- The accumulator of the per-ordinal update/addition loop
(`ingest_docs` lines 77-95). -/
structure ChunkPassRes where
  db : DBState
  added : Nat
  updated : Nat
  deleted_ids : List Nat
  texts : List Str
  cids : List Nat
deriving Repr

/-- The update/addition loop of `ingest_docs` (lines 84-95): for each
`(ordinal, text, hash)` of the new split, skip it entirely when the stored
chunk map has the same hash at that ordinal; otherwise count it as updated
(remembering the superseded chunk id) or added, insert a fresh row under the
new version and queue the text for embedding. -/
def chunkPass (doc_id version now : Nat) (existing : List (Nat × ChunkRow)) :
    List (Nat × Str × Str) → ChunkPassRes → ChunkPassRes
  | [], r => r
  | (idx, txt, h) :: rest, r =>
    match dictGet existing idx with
    | some ec =>
      if ec.chunk_hash = h then chunkPass doc_id version now existing rest r
      else
        let ins := insert_chunk r.db doc_id idx h txt version now
        chunkPass doc_id version now existing rest
          { db := ins.1, added := r.added, updated := r.updated + 1,
            deleted_ids := r.deleted_ids ++ [ec.chunk_id],
            texts := r.texts ++ [txt], cids := r.cids ++ [ins.2] }
    | none =>
      let ins := insert_chunk r.db doc_id idx h txt version now
      chunkPass doc_id version now existing rest
        { db := ins.1, added := r.added + 1, updated := r.updated,
          deleted_ids := r.deleted_ids,
          texts := r.texts ++ [txt], cids := r.cids ++ [ins.2] }

/-- The changed-document body of the per-file loop (`ingest_docs` lines
68-115), entered once the fingerprints differ (or no document exists). -/
def processChanged (fp : Str → Str) (chunk_chars overlap_chars now : Nat)
    (d0 : Option DocRow) (rel : String) (raw doc_hash : Str) (st : IngestSt) :
    Except IngestErr IngestSt :=
  let new_max := match d0 with
    | none => 1
    | some d => pyOrNat d.max_version d.version + 1
  let up := upsert_document st.db rel doc_hash new_max new_max now
  let db1 := up.1
  let doc_row := up.2
  let existing_chunks :=
    buildDict (fun c => c.chunk_index) (fun c => c)
      (list_chunks_for_doc db1 doc_row.doc_id)
  match chunk_text raw chunk_chars overlap_chars with
  | none => .error .diverge
  | some chunks =>
    let new_hashes := chunks.map fp
    let items := (List.range chunks.length).zip (chunks.zip new_hashes)
    let r := chunkPass doc_row.doc_id new_max now existing_chunks items
      ⟨db1, 0, 0, [], [], []⟩
    let extra_deleted :=
      (existing_chunks.filter (fun p => decide (chunks.length ≤ p.1))).map
        (fun p => p.2.chunk_id)
    let deleted := (r.deleted_ids ++ extra_deleted).dedup
    let s := st.summary
    let s1 : Summary :=
      { s with chunks_added := s.chunks_added + r.added,
               chunks_updated := s.chunks_updated + r.updated,
               chunks_deactivated := s.chunks_deactivated + deleted.length }
    if r.texts.isEmpty then
      .ok { summary := { s1 with docs_changed := s1.docs_changed + 1 },
            db := r.db, ix := st.ix, batches := st.batches }
    else
      let av := add_vectors st.ix r.texts.length (r.cids.map Int.ofNat)
      let db2 := (r.cids.zip av.2).foldl
        (fun db p => set_vector_row db p.1 p.2) r.db
      .ok { summary := { s1 with embed_calls := s1.embed_calls + 1,
                                 docs_changed := s1.docs_changed + 1 },
            db := db2, ix := av.1, batches := st.batches ++ [r.texts] }

/-- One iteration of the per-file loop of `ingest_docs` (lines 50-115):
skip hidden and non-text files before any counting, then count the scan,
read the file (an `OSError` aborts the whole pass), and either count the
document unchanged or run the changed-document body.  `existing0` is the
`existing_docs` dict cached from the database once, before the loop. -/
def processFile (fp : Str → Str) (chunk_chars overlap_chars now : Nat)
    (existing0 : String → Option DocRow) (st : IngestSt) (f : FileEntry) :
    Except IngestErr IngestSt :=
  if ".".data.isPrefixOf f.fn.data then .ok st
  else if !((".md".data.isSuffixOf f.fn.data) || (".txt".data.isSuffixOf f.fn.data))
  then .ok st
  else
    let s := st.summary
    let st := { st with summary := { s with docs_scanned := s.docs_scanned + 1 } }
    match f.read with
    | .error _ => .error .ioError
    | .ok raw =>
      let doc_hash := fp raw
      match existing0 f.rel with
      | some d0 =>
        if d0.doc_hash = doc_hash then
          .ok { st with summary :=
            { st.summary with docs_unchanged := st.summary.docs_unchanged + 1 } }
        else
          processChanged fp chunk_chars overlap_chars now (some d0) f.rel raw
            doc_hash st
      | none =>
        processChanged fp chunk_chars overlap_chars now none f.rel raw doc_hash st

/-- The per-file loop over the corpus in walk order. -/
def ingestLoop (fp : Str → Str) (chunk_chars overlap_chars now : Nat)
    (existing0 : String → Option DocRow) :
    List FileEntry → IngestSt → Except IngestErr IngestSt
  | [], st => .ok st
  | f :: fs, st =>
    match processFile fp chunk_chars overlap_chars now existing0 st f with
    | .error e => .error e
    | .ok st' => ingestLoop fp chunk_chars overlap_chars now existing0 fs st'

/-- The `existing_docs` cache of `ingest_docs` (line 48):
`{d.path: d for d in db.list_documents()}`, as a lookup function. -/
def existingDocsGet (db : DBState) (rel : String) : Option DocRow :=
  dictGet (buildDict (fun d : DocRow => d.path) (fun d => d) (list_documents db)) rel

/-- Model of `ingest_docs(db, index, embedder, docs_dir, chunk_chars, overlap_chars)`:
walk the corpus, process each file, and return the summary together with the
final database, index state and the trace of embedding batches. -/
def ingest_docs (fp : Str → Str) (db0 : DBState) (ix0 : VectorState)
    (corpus : List FileEntry) (chunk_chars overlap_chars now : Nat) :
    Except IngestErr (Summary × DBState × VectorState × List (List Str)) :=
  (ingestLoop fp chunk_chars overlap_chars now (existingDocsGet db0) corpus
      ⟨Summary.zero, db0, ix0, []⟩).map
    fun st => (st.summary, st.db, st.ix, st.batches)

/-! ## Specification-side helpers for theorem statements -/

instance [DecidableEq ε] [DecidableEq α] : DecidableEq (Except ε α) := fun x y =>
  match x, y with
  | .error a, .error b =>
    if h : a = b then .isTrue (by rw [h])
    else .isFalse fun hc => h (by cases hc; rfl)
  | .ok a, .ok b =>
    if h : a = b then .isTrue (by rw [h])
    else .isFalse fun hc => h (by cases hc; rfl)
  | .error _, .ok _ => .isFalse fun hc => Except.noConfusion hc
  | .ok _, .error _ => .isFalse fun hc => Except.noConfusion hc

instance : DecidableEq (Summary × DBState × VectorState × List (List Str)) :=
  fun a b => instDecidableEqProd a b

/-- Every column of a chunk row except the store-assigned `chunk_id`; used to
state which rows the update loop writes without fixing id arithmetic. -/
def chunkKey (c : ChunkRow) : Nat × Nat × Str × Str × Nat × Nat :=
  (c.doc_id, c.chunk_index, c.chunk_hash, c.text, c.version, c.updated_at)

/-- The row (keyed as `chunkKey`) that the update loop is expected to write
for one `(ordinal, text, hash)` item of the new split: none when the stored
chunk map holds the same hash at that ordinal, else a fresh row under the
new version. -/
def expectedRow (doc_id version now : Nat) (existing : List (Nat × ChunkRow))
    (it : Nat × Str × Str) : Option (Nat × Nat × Str × Str × Nat × Nat) :=
  match dictGet existing it.1 with
  | some ec =>
    if ec.chunk_hash = it.2.2 then none
    else some (doc_id, it.1, it.2.2, it.2.1, version, now)
  | none => some (doc_id, it.1, it.2.2, it.2.1, version, now)

/-- The text the update loop is expected to queue for embedding for one
item: none exactly when the stored chunk map holds the same hash. -/
def expectedText (existing : List (Nat × ChunkRow)) (it : Nat × Str × Str) :
    Option Str :=
  match dictGet existing it.1 with
  | some ec => if ec.chunk_hash = it.2.2 then none else some it.2.1
  | none => some it.2.1

/-! ## Concrete scenarios

Fingerprints are instantiated with the identity function, which is injective
and therefore a faithful stand-in for the collision-resistant SHA-256 digest
on these inputs. -/

/-- C1 scenario, version 1: a two-chunk document (`chunk_chars = 1`,
`overlap_chars = 0`), text `"ab"`. -/
def c1_file_v1 : FileEntry := ⟨"d.md", "d.md", .ok "ab".data⟩

/-- C1 scenario, version 2: same document, text `"ac"` — ordinal 0 is
byte-identical, ordinal 1 changed. -/
def c1_file_v2 : FileEntry := ⟨"d.md", "d.md", .ok "ac".data⟩

def c1_pass1 : Except IngestErr (Summary × DBState × VectorState × List (List Str)) :=
  ingest_docs id DBState.empty ⟨[], 0⟩ [c1_file_v1] 1 0 0

def c1_db1 : DBState := match c1_pass1 with | .ok r => r.2.1 | .error _ => DBState.empty

def c1_ix1 : VectorState := match c1_pass1 with | .ok r => r.2.2.1 | .error _ => ⟨[], 0⟩

def c1_pass2 : Except IngestErr (Summary × DBState × VectorState × List (List Str)) :=
  ingest_docs id c1_db1 c1_ix1 [c1_file_v2] 1 0 0

def c1_db2 : DBState := match c1_pass2 with | .ok r => r.2.1 | .error _ => DBState.empty

def c1_batches2 : List (List Str) :=
  match c1_pass2 with | .ok r => r.2.2.2 | .error _ => []

/-- C2 scenario, version 1: a five-chunk document (`chunk_chars = 1`,
`overlap_chars = 0`), text `"abcde"`. -/
def c2_file_v1 : FileEntry := ⟨"e.md", "e.md", .ok "abcde".data⟩

/-- C2 scenario, version 2: only the chunk at ordinal 2 changes. -/
def c2_file_v2 : FileEntry := ⟨"e.md", "e.md", .ok "abXde".data⟩

def c2_pass1 : Except IngestErr (Summary × DBState × VectorState × List (List Str)) :=
  ingest_docs id DBState.empty ⟨[], 0⟩ [c2_file_v1] 1 0 0

def c2_summary1 : Summary := match c2_pass1 with | .ok r => r.1 | .error _ => Summary.zero

def c2_db1 : DBState := match c2_pass1 with | .ok r => r.2.1 | .error _ => DBState.empty

def c2_ix1 : VectorState := match c2_pass1 with | .ok r => r.2.2.1 | .error _ => ⟨[], 0⟩

def c2_pass2 : Except IngestErr (Summary × DBState × VectorState × List (List Str)) :=
  ingest_docs id c2_db1 c2_ix1 [c2_file_v2] 1 0 0

def c2_summary2 : Summary := match c2_pass2 with | .ok r => r.1 | .error _ => Summary.zero

def c2_db2 : DBState := match c2_pass2 with | .ok r => r.2.1 | .error _ => DBState.empty

def c2_batches2 : List (List Str) :=
  match c2_pass2 with | .ok r => r.2.2.2 | .error _ => []

def c2_diff : Option (DiffSummary × List (Nat × DStatus)) :=
  diff_doc_versions c2_db2 "e.md" 1 2

/-- C4 scenario contexts: surviving hits with scores 0.9, 0.83 and 0.5. -/
def c4_ctx1 : Context := ⟨"p1", 1, 9/10, "t1".data⟩

def c4_ctx2 : Context := ⟨"p2", 2, 83/100, "t2".data⟩

def c4_ctx3 : Context := ⟨"p3", 3, 1/2, "t3".data⟩

def c4_example_contexts : List Context := [c4_ctx1, c4_ctx2, c4_ctx3]

/-- C3 witness database: one document whose active version is 2, with a
version-1 chunk (id 1) and a version-2 chunk (id 2). -/
def c3_doc : DocRow := ⟨1, "w.md", "h2".data, 2, some 2, 0⟩

def c3_chunk_v1 : ChunkRow := ⟨1, 1, 0, "old".data, "old".data, 1, 0⟩

def c3_chunk_v2 : ChunkRow := ⟨2, 1, 0, "new".data, "new".data, 2, 0⟩

def c3_db : DBState := ⟨[c3_doc], [c3_chunk_v1, c3_chunk_v2], [], 2, 3⟩

/-- C8 scenario: an eligible file whose `open` raises `OSError`, followed by
a perfectly readable file. -/
def c8_bad_file : FileEntry := ⟨"bad.md", "bad.md", .error ()⟩

def c8_good_file : FileEntry := ⟨"good.md", "good.md", .ok "hello".data⟩

def c8_pass : Except IngestErr (Summary × DBState × VectorState × List (List Str)) :=
  ingest_docs id DBState.empty ⟨[], 0⟩ [c8_bad_file, c8_good_file] 1 0 0

/-! ## Helper lemmas -/

theorem mem_orderedInsertB {le : α → α → Bool} {a x : α} {l : List α} :
    x ∈ orderedInsertB le a l ↔ x = a ∨ x ∈ l := by
  induction l with
  | nil => simp [orderedInsertB]
  | cons b t ih =>
    by_cases h : le a b = true
    · simp [orderedInsertB, h]
    · simp only [orderedInsertB, if_neg h, List.mem_cons, ih]
      tauto

theorem mem_insertionSortB {le : α → α → Bool} {x : α} {l : List α} :
    x ∈ insertionSortB le l ↔ x ∈ l := by
  induction l with
  | nil => simp [insertionSortB]
  | cons b t ih => simp [insertionSortB, mem_orderedInsertB, ih]

theorem mem_assocUpd [DecidableEq κ] {l : List (κ × α)} {k : κ} {v : α}
    {p : κ × α} (h : p ∈ assocUpd l k v) : p ∈ l ∨ p = (k, v) := by
  unfold assocUpd at h
  split at h
  · obtain ⟨q, hq, hqe⟩ := List.mem_map.mp h
    by_cases hqk : q.1 = k
    · rw [if_pos hqk] at hqe
      exact Or.inr hqe.symm
    · rw [if_neg hqk] at hqe
      exact Or.inl (hqe ▸ hq)
  · rcases List.mem_append.mp h with h' | h'
    · exact Or.inl h'
    · exact Or.inr (List.mem_singleton.mp h')

theorem mem_buildDict [DecidableEq κ] {key : β → κ} {val : β → α}
    {rows : List β} {p : κ × α} (h : p ∈ buildDict key val rows) :
    ∃ x ∈ rows, p = (key x, val x) := by
  suffices haux : ∀ (rows : List β) (acc : List (κ × α)),
      p ∈ rows.foldl (fun d x => assocUpd d (key x) (val x)) acc →
      p ∈ acc ∨ ∃ x ∈ rows, p = (key x, val x) by
    rcases haux rows [] h with h' | h'
    · simp at h'
    · exact h'
  intro rows
  induction rows with
  | nil => intro acc h; exact Or.inl h
  | cons b t ih =>
    intro acc h
    rcases ih (assocUpd acc (key b) (val b)) h with h' | h'
    · rcases mem_assocUpd h' with h'' | h''
      · exact Or.inl h''
      · exact Or.inr ⟨b, by simp, h''⟩
    · obtain ⟨x, hx, hxe⟩ := h'
      exact Or.inr ⟨x, by simp [hx], hxe⟩

theorem docs_map_spec {db : DBState} {i : Nat} {m : String × Nat}
    (h : docs_map db i = some m) :
    ∃ d ∈ db.documents, d.doc_id = i ∧ m = (d.path, d.version) := by
  unfold docs_map at h
  obtain ⟨d, hfind, hm⟩ := Option.map_eq_some'.mp h
  have hmem : d ∈ (list_documents db).reverse := List.mem_of_find?_eq_some hfind
  have hpred : d.doc_id = i := by
    have := List.find?_some hfind
    simpa using this
  refine ⟨d, ?_, hpred, hm.symm⟩
  have : d ∈ list_documents db := List.mem_reverse.mp hmem
  simpa [list_documents, mem_insertionSortB] using this

/-- The step of `logical_delete_chunk_ids` is pointwise idempotent. -/
theorem delete_step_idem (ids : List Int) (x : Int) :
    (if (if x ∈ ids then (-1 : Int) else x) ∈ ids then (-1 : Int)
     else if x ∈ ids then -1 else x)
      = if x ∈ ids then -1 else x := by
  by_cases hx : x ∈ ids <;> simp [hx]

/-- The non-advancing `chunk_text` loop state: with `chunk_chars = 1`,
`overlap_chars = 1` and a three-character text, the window start stays at
`0` forever, so no amount of fuel completes the loop. -/
theorem chunkLoop_nonadvancing (t : Str) :
    ∀ (fuel : Nat) (out : List Str), chunkLoop 1 1 3 t fuel 0 out = none := by
  intro fuel
  induction fuel with
  | zero => intro out; rfl
  | succ n ih =>
    intro out
    show chunkLoop 1 1 3 t (n + 1) 0 out = none
    unfold chunkLoop
    simp only [show (0 : Nat) < 3 by decide, if_true]
    norm_num
    exact ih _

/-! ## Claim C5 — chunker termination (code_bug)

The specification requires `chunk_text` to guard the `overlapSize ≥
windowSize` configuration; the implementation has no guard, and its window
never advances, so the `while` loop runs forever. -/

/-- C5: on the three-character input `"abc"` with `windowSize = 1` and
`overlapSize = 1`, the `chunk_text` loop never terminates — no fuel bound
completes it, and in particular the model's canonical fuel is exhausted.
The claim's guarded-termination property is therefore false of the code. -/
theorem c5_chunker_diverges_on_overlap_ge_window :
    (∀ (fuel : Nat) (out : List Str),
        chunkLoop 1 1 3 "abc".data fuel 0 out = none) ∧
      chunk_text "abc".data 1 1 = none := by
  refine ⟨chunkLoop_nonadvancing _, ?_⟩
  show chunk_text "abc".data 1 1 = none
  unfold chunk_text
  simp only [show pyStrip "abc".data = "abc".data from by decide]
  simpa using chunkLoop_nonadvancing "abc".data 4 []

/-! ## Claim C6 — chunker determinism and window layout (confirmed) -/

/-- The 25-character test string of the specification's chunker scenario. -/
def s25 : Str := "abcdefghijklmnopqrstuvwxy".data

/-- C6: `chunk_text` is deterministic (it is a pure function of its inputs);
empty post-trim input yields the empty sequence; and on a 25-character
string with `windowSize = 10`, `overlapSize = 3` it yields exactly the four
windows starting at offsets 0, 7, 14 and 21, the last truncated to the
remaining four characters. -/
theorem c6_chunker_deterministic_windows :
    (∀ (t : Str) (c o : Nat), chunk_text t c o = chunk_text t c o) ∧
      (∀ (t : Str) (c o : Nat), pyStrip t = [] → chunk_text t c o = some []) ∧
      chunk_text s25 10 3 =
        some [(s25.drop 0).take 10, (s25.drop 7).take 10,
              (s25.drop 14).take 10, (s25.drop 21).take 10] := by
  refine ⟨fun _ _ _ => rfl, fun t c o h => ?_, by decide⟩
  unfold chunk_text
  simp [h]

/-- Witness for C6: the empty-input clause applied at a whitespace-only
string. -/
theorem c6_witness : chunk_text " ".data 4 1 = some [] :=
  c6_chunker_deterministic_windows.2.1 " ".data 4 1 (by decide)

/-! ## Claim C9 — load-time consistency check (corrected)

`VectorIndex._load_or_create` reads the persisted mapping and the backend
index and installs both without any comparison; there is no
`StorageInconsistency` failure path anywhere in the class, so a mismatched
mapping is served silently. -/

/-- C9 counterexample: a persisted backend with 3 rows and a persisted
mapping of length 2 load successfully into a serving state — the claimed
fail-fast behaviour (checked by `load_or_create_spec`, written from the
spec's words) would have refused it. -/
theorem c9_counterexample_mismatch_loads :
    load_or_create (some 3) (some [5, 7]) = ⟨[5, 7], 3⟩ ∧
      (load_or_create (some 3) (some [5, 7])).row_to_chunk.length ≠
        (load_or_create (some 3) (some [5, 7])).ntotal ∧
      load_or_create_spec (some 3) (some [5, 7]) = .error () := by
  refine ⟨rfl, by decide, rfl⟩

/-- C9 amended: the load path performs no consistency check at all — when
both persisted files exist, mapping and backend are installed exactly as
persisted, regardless of whether the lengths agree; in every other case a
fresh empty index is created. -/
theorem c9_amended_no_load_check :
    (∀ (n : Nat) (m : List Int), load_or_create (some n) (some m) = ⟨m, n⟩) ∧
      (∀ (m : Option (List Int)), load_or_create none m = ⟨[], 0⟩) ∧
      (∀ (n : Nat), load_or_create (some n) none = ⟨[], 0⟩) := by
  exact ⟨fun _ _ => rfl, fun m => by cases m <;> rfl, fun _ => rfl⟩

/-! ## Claim C10 — logical deletion is a frame-preserving tombstone map
(confirmed) -/

/-- C10: `logical_delete_chunk_ids` preserves the mapping length (and the
backend row count), leaves every entry whose chunk id is not in the given
list unchanged, sets every entry whose chunk id is in the list to the
tombstone sentinel `-1`, and is idempotent. -/
theorem c10_logical_delete_frame :
    ∀ (ix : VectorState) (ids : List Int),
      (logical_delete_chunk_ids ix ids).row_to_chunk.length =
          ix.row_to_chunk.length ∧
        (logical_delete_chunk_ids ix ids).ntotal = ix.ntotal ∧
        (∀ i, i < ix.row_to_chunk.length →
          (ix.row_to_chunk.getD i 0 ∉ ids →
            (logical_delete_chunk_ids ix ids).row_to_chunk.getD i 0 =
              ix.row_to_chunk.getD i 0) ∧
          (ix.row_to_chunk.getD i 0 ∈ ids →
            (logical_delete_chunk_ids ix ids).row_to_chunk.getD i 0 = -1)) ∧
        logical_delete_chunk_ids (logical_delete_chunk_ids ix ids) ids =
          logical_delete_chunk_ids ix ids := by
  intro ix ids
  by_cases hids : ids = []
  · subst hids
    simp [logical_delete_chunk_ids]
  · have hmap : logical_delete_chunk_ids ix ids =
        { ix with row_to_chunk := ix.row_to_chunk.map fun cid =>
            if cid ∈ ids then -1 else cid } := by
      simp [logical_delete_chunk_ids, hids]
    refine ⟨by simp [hmap], by simp [hmap], ?_, ?_⟩
    · intro i hi
      have hget : (logical_delete_chunk_ids ix ids).row_to_chunk.getD i 0 =
          (if ix.row_to_chunk.getD i 0 ∈ ids then -1
           else ix.row_to_chunk.getD i 0) := by
        rw [hmap]
        simp only [List.getD_eq_getElem?_getD]
        rw [List.getElem?_map]
        rw [List.getElem?_eq_getElem hi]
        simp
      constructor
      · intro hnot; rw [hget, if_neg hnot]
      · intro hin; rw [hget, if_pos hin]
    · have hfun :
          ((fun cid => if cid ∈ ids then (-1 : Int) else cid) ∘
              fun cid => if cid ∈ ids then (-1 : Int) else cid) =
            fun cid => if cid ∈ ids then (-1 : Int) else cid := by
        funext x
        simpa [Function.comp] using delete_step_idem ids x
      rw [hmap]
      unfold logical_delete_chunk_ids
      rw [if_neg hids]
      simp [List.map_map, hfun]

/-- Witness for C10: the frame facts at a concrete mapping. -/
theorem c10_witness :
    (logical_delete_chunk_ids ⟨[5, 7, 9], 3⟩ [7]).row_to_chunk.length = 3 ∧
      (logical_delete_chunk_ids ⟨[5, 7, 9], 3⟩ [7]).row_to_chunk.getD 1 0 = -1 ∧
      (logical_delete_chunk_ids ⟨[5, 7, 9], 3⟩ [7]).row_to_chunk.getD 0 0 = 5 := by
  refine ⟨?_, ?_, ?_⟩
  · simpa using (c10_logical_delete_frame ⟨[5, 7, 9], 3⟩ [7]).1
  · exact ((c10_logical_delete_frame ⟨[5, 7, 9], 3⟩ [7]).2.2.1 1 (by decide)).2
      (by decide)
  · simpa using ((c10_logical_delete_frame ⟨[5, 7, 9], 3⟩ [7]).2.2.1 0
      (by decide)).1 (by decide)

/-- Everything the gate emits was in the gate's input list. -/
theorem mem_of_mem_gate {cs : List Context} {τ w : ℚ} {n : Nat} {x : Context}
    (h : x ∈ gate cs τ w n) : x ∈ cs := by
  cases cs with
  | nil => simp [gate] at h
  | cons b t =>
    by_cases hb : b.score < τ
    · simp [gate, hb] at h
    · rw [show gate (b :: t) τ w n =
          ((b :: t).filter fun c => max τ (b.score - w) ≤ c.score).take n from by
        simp [gate, hb]] at h
      exact List.mem_of_mem_filter (List.take_subset _ _ h)

/-- Inversion of the hit-resolution loop: every emitted context resolves to
a stored chunk whose version equals the `active_version` entry of its owning
document in the docs map. -/
theorem resolve_hits_version {db : DBState} {hits : List (Nat × ℚ)}
    {ctx : Context} (h : ctx ∈ resolve_hits db hits) :
    ∃ crow, get_chunk_by_id db ctx.chunk_id = some crow ∧
      docs_map db crow.doc_id = some (ctx.source_path, crow.version) := by
  unfold resolve_hits at h
  obtain ⟨p, _, hfp⟩ := List.mem_filterMap.mp h
  cases hc : get_chunk_by_id db p.1 with
  | none => simp [hc] at hfp
  | some crow =>
    cases hm : docs_map db crow.doc_id with
    | none => simp [hc, hm] at hfp
    | some meta =>
      obtain ⟨mp, mv⟩ := meta
      simp only [hc, hm] at hfp
      split at hfp
      case isTrue hv =>
        cases hfp
        exact ⟨crow, hc, by rw [hv]; exact hm⟩
      case isFalse hv => cases hfp

/-- The version property carries through sorting and the gate: the full
`chat` context pipeline only emits version-matching chunks. -/
theorem chat_version_resolved {db : DBState} {hits : List (Nat × ℚ)}
    {τ w : ℚ} {n : Nat} {ctx : Context}
    (h : ctx ∈ chat_contexts db hits τ w n) :
    ∃ crow, get_chunk_by_id db ctx.chunk_id = some crow ∧
      docs_map db crow.doc_id = some (ctx.source_path, crow.version) := by
  unfold chat_contexts at h
  have h1 : ctx ∈ sortByScoreDesc (resolve_hits db hits) := mem_of_mem_gate h
  have h2 : ctx ∈ resolve_hits db hits := by
    simpa [sortByScoreDesc, mem_insertionSortB] using h1
  exact resolve_hits_version h2

/-- After `set_active_version path v`, every document row at that path
carries version `v`. -/
theorem set_active_version_path_mem {db : DBState} {path : String}
    {v now : Nat} {d : DocRow}
    (hd : d ∈ (set_active_version db path v now).1.documents)
    (hp : d.path = path) : d.version = v := by
  unfold set_active_version at hd
  obtain ⟨d0, _, hde⟩ := List.mem_map.mp hd
  by_cases h0 : d0.path = path
  · rw [if_pos h0] at hde
    cases hde
    rfl
  · rw [if_neg h0] at hde
    cases hde
    exact absurd hp h0

/-! ## Claim C4 — the retrieval confidence gate (confirmed) -/

/-- C4: the gate returns no contexts when the surviving set is empty or its
best score is below `τ_min`; otherwise it retains exactly the hits scoring
at least `max(τ_min, best - window)`, truncated to the first `N_max` of the
descending-sorted list (which, the retained list being sorted as well, are
the highest-scoring retained hits).  On scores `[0.9, 0.83, 0.5]` with
`τ_min = 0.35`, `window = 0.08`, `N_max = 4` exactly the first two hits
survive. -/
theorem c4_confidence_gate :
    (∀ (τ w : ℚ) (n : Nat), gate [] τ w n = []) ∧
      (∀ (τ w : ℚ) (n : Nat) (best : Context) (rest : List Context),
        best.score < τ → gate (best :: rest) τ w n = []) ∧
      (∀ (τ w : ℚ) (n : Nat) (best : Context) (rest : List Context),
        τ ≤ best.score →
          gate (best :: rest) τ w n =
              ((best :: rest).filter fun c =>
                max τ (best.score - w) ≤ c.score).take n ∧
            (List.Pairwise (fun a b => b.score ≤ a.score) (best :: rest) →
              List.Pairwise (fun a b => b.score ≤ a.score)
                ((best :: rest).filter fun c =>
                  max τ (best.score - w) ≤ c.score))) ∧
      gate c4_example_contexts (35/100) (8/100) 4 = [c4_ctx1, c4_ctx2] := by
  refine ⟨fun _ _ _ => rfl, ?_, ?_, ?_⟩
  · intro τ w n best rest h
    simp [gate, h]
  · intro τ w n best rest h
    constructor
    · simp [gate, not_lt.mpr h]
    · intro hp
      exact hp.sublist (List.filter_sublist _)
  · have hsub : (9 / 10 : ℚ) - 8 / 100 = 41 / 50 := by norm_num
    have hth : max (35 / 100 : ℚ) (9 / 10 - 8 / 100) = 41 / 50 := by
      rw [hsub]
      exact max_eq_right (by norm_num)
    simp only [gate, c4_example_contexts, c4_ctx1, c4_ctx2, c4_ctx3, hth]
    norm_num

/-- Witness for C4: the below-floor clause and the threshold clause applied
at concrete inputs. -/
theorem c4_witness :
    gate [⟨"q", 9, 1/10, []⟩] (35/100) (8/100) 4 = [] ∧
      gate [⟨"q", 9, 1/2, []⟩] (35/100) (8/100) 4 =
        (([⟨"q", 9, 1/2, []⟩] : List Context).filter fun c =>
          max (35/100) ((1:ℚ)/2 - 8/100) ≤ c.score).take 4 :=
  ⟨c4_confidence_gate.2.1 (35/100) (8/100) 4 ⟨"q", 9, 1/10, []⟩ [] (by norm_num),
   (c4_confidence_gate.2.2.1 (35/100) (8/100) 4 ⟨"q", 9, 1/2, []⟩ [] (by norm_num)).1⟩

/-! ## Claim C3 — the active-version invariant of retrieval (confirmed) -/

/-- C3: every context the `chat` pipeline emits resolves to a stored chunk
whose version equals the `active_version` of its owning document in the
docs map; in particular, after `set_active_version(path, v)` with
`1 ≤ v ≤ maxVersion`, every emitted context of that document comes from a
chunk with `version = v`; and every citation is built one-for-one from an
emitted context. -/
theorem c3_active_version_invariant :
    (∀ (db : DBState) (hits : List (Nat × ℚ)) (τ w : ℚ) (n : Nat)
        (ctx : Context),
      ctx ∈ chat_contexts db hits τ w n →
        ∃ crow, get_chunk_by_id db ctx.chunk_id = some crow ∧
          docs_map db crow.doc_id = some (ctx.source_path, crow.version)) ∧
      (∀ (db : DBState) (path : String) (v now : Nat)
          (hits : List (Nat × ℚ)) (τ w : ℚ) (n : Nat) (ctx : Context),
        1 ≤ v →
        (∀ d0, get_document_by_path db path = some d0 →
          v ≤ pyOrNat d0.max_version d0.version) →
        ctx ∈ chat_contexts (set_active_version db path v now).1 hits τ w n →
        ctx.source_path = path →
          ∃ crow,
            get_chunk_by_id (set_active_version db path v now).1 ctx.chunk_id =
                some crow ∧
              crow.version = v) ∧
      (∀ (cs : List Context) (cit : Citation), cit ∈ citations_of cs →
        ∃ ctx ∈ cs, cit.source_path = ctx.source_path ∧
          cit.chunk_id = ctx.chunk_id ∧ cit.score = ctx.score) := by
  refine ⟨fun db hits τ w n ctx h => chat_version_resolved h, ?_, ?_⟩
  · intro db path v now hits τ w n ctx _ _ h hpath
    obtain ⟨crow, hc, hm⟩ := chat_version_resolved h
    obtain ⟨d, hd, _, hde⟩ := docs_map_spec hm
    have h1 : ctx.source_path = d.path := congrArg Prod.fst hde
    have h2 : crow.version = d.version := congrArg Prod.snd hde
    have hdp : d.path = path := by rw [← h1, hpath]
    exact ⟨crow, hc, by rw [h2]; exact set_active_version_path_mem hd hdp⟩
  · intro cs cit h
    obtain ⟨ctx, hctx, he⟩ := List.mem_map.mp (by simpa [citations_of] using h)
    subst he
    exact ⟨ctx, hctx, rfl, rfl, rfl⟩

/-- Witness for C3: the rollback clause applied to a concrete store holding
a version-1 and a version-2 chunk, rolled back to version 1. -/
theorem c3_witness :
    ∃ crow,
      get_chunk_by_id (set_active_version c3_db "w.md" 1 5).1 1 = some crow ∧
        crow.version = 1 := by
  have hcc : chat_contexts (set_active_version c3_db "w.md" 1 5).1 [(1, 1)]
      (35/100) (8/100) 4 = [⟨"w.md", 1, 1, "old".data⟩] := by
    norm_num [chat_contexts, resolve_hits, sortByScoreDesc, insertionSortB,
      orderedInsertB, gate, get_chunk_by_id, docs_map, list_documents,
      set_active_version, c3_db, c3_doc, c3_chunk_v1, c3_chunk_v2, dictGet,
      get_document_by_path, max_le_iff, List.filterMap, List.find?, lexLe]
  exact c3_active_version_invariant.2.1 c3_db "w.md" 1 5 [(1, 1)] (35/100)
    (8/100) 4 ⟨"w.md", 1, 1, "old".data⟩ (by norm_num)
    (by
      intro d0 h
      have : some c3_doc = some d0 := by
        rw [← h]
        rfl
      cases this
      decide)
    (by rw [hcc]; exact List.mem_singleton.mpr rfl) rfl

/-! ## Claim C1 — chunk rows written for a changed document (corrected)

The update loop does *not* write a row for every ordinal of the new split:
an ordinal whose fingerprint matches the stored chunk map is skipped
entirely (`continue` before `insert_chunk`), so the new version's chunk
listing holds only the changed-or-added ordinals. -/

/-- C1 counterexample: re-ingesting `"ab" → "ac"` with one-character chunks
splits the new text into two ordinals, yet version 2 receives a single
chunk row (ordinal 1 only) — not one row per ordinal of the new split as
the claim states.  (The unchanged ordinal is also excluded from
re-embedding: the only embedded batch is `["c"]`.) -/
theorem c1_counterexample_unchanged_ordinal_not_rewritten :
    chunk_text "ac".data 1 0 = some [['a'], ['c']] ∧
      (list_chunks_for_doc_version c1_db2 1 2).map (fun c => c.chunk_index) = [1] ∧
      (list_chunks_for_doc_version c1_db2 1 2).length ≠ 2 ∧
      c1_batches2 = [[['c']]] := by
  exact ⟨by decide, by decide, by decide, by decide⟩

/-- C1 amended: for a changed document, the update loop writes a brand-new
chunk row under the new version for *exactly* those ordinals of the new
split whose fingerprint differs from the stored chunk map at that ordinal
or which are new ordinals; byte-identical same-ordinal chunks get no row
under the new version and are excluded from re-embedding (the queued texts
are exactly the changed-or-added ones). -/
theorem c1_amended_rows_exactly_changed_or_added :
    ∀ (doc_id version now : Nat) (existing : List (Nat × ChunkRow))
      (items : List (Nat × Str × Str)) (r0 : ChunkPassRes),
      ((chunkPass doc_id version now existing items r0).db.chunks.map chunkKey =
          r0.db.chunks.map chunkKey ++
            items.filterMap (expectedRow doc_id version now existing)) ∧
        ((chunkPass doc_id version now existing items r0).texts =
          r0.texts ++ items.filterMap (expectedText existing)) := by
  intro doc_id version now existing items
  induction items with
  | nil => intro r0; simp [chunkPass]
  | cons it rest ih =>
    intro r0
    obtain ⟨idx, txt, h⟩ := it
    cases hd : dictGet existing idx with
    | some ec =>
      by_cases hh : ec.chunk_hash = h
      · have hstep : chunkPass doc_id version now existing
            ((idx, txt, h) :: rest) r0 =
            chunkPass doc_id version now existing rest r0 := by
          simp only [chunkPass, hd, if_pos hh]
        rw [hstep]
        simp only [List.filterMap_cons, expectedRow, expectedText, hd, hh,
          if_pos rfl]
        exact ih r0
      · have hstep : chunkPass doc_id version now existing
            ((idx, txt, h) :: rest) r0 =
            chunkPass doc_id version now existing rest
              { db := (insert_chunk r0.db doc_id idx h txt version now).1,
                added := r0.added, updated := r0.updated + 1,
                deleted_ids := r0.deleted_ids ++ [ec.chunk_id],
                texts := r0.texts ++ [txt],
                cids := r0.cids ++ [(insert_chunk r0.db doc_id idx h txt version now).2] } := by
          simp only [chunkPass, hd, if_neg hh]
        rw [hstep]
        obtain ⟨h1, h2⟩ := ih
          { db := (insert_chunk r0.db doc_id idx h txt version now).1,
            added := r0.added, updated := r0.updated + 1,
            deleted_ids := r0.deleted_ids ++ [ec.chunk_id],
            texts := r0.texts ++ [txt],
            cids := r0.cids ++ [(insert_chunk r0.db doc_id idx h txt version now).2] }
        constructor
        · rw [h1]
          simp only [List.filterMap_cons, expectedRow, expectedText, hd, hh,
            if_neg hh, insert_chunk, chunkKey, List.map_append]
          simp [List.append_assoc, chunkKey]
        · rw [h2]
          simp only [List.filterMap_cons, expectedText, hd, hh, if_neg hh]
          simp [List.append_assoc]
    | none =>
      have hstep : chunkPass doc_id version now existing
          ((idx, txt, h) :: rest) r0 =
          chunkPass doc_id version now existing rest
            { db := (insert_chunk r0.db doc_id idx h txt version now).1,
              added := r0.added + 1, updated := r0.updated,
              deleted_ids := r0.deleted_ids,
              texts := r0.texts ++ [txt],
              cids := r0.cids ++ [(insert_chunk r0.db doc_id idx h txt version now).2] } := by
        simp only [chunkPass, hd]
      rw [hstep]
      obtain ⟨h1, h2⟩ := ih
        { db := (insert_chunk r0.db doc_id idx h txt version now).1,
          added := r0.added + 1, updated := r0.updated,
          deleted_ids := r0.deleted_ids,
          texts := r0.texts ++ [txt],
          cids := r0.cids ++ [(insert_chunk r0.db doc_id idx h txt version now).2] }
      constructor
      · rw [h1]
        simp only [List.filterMap_cons, expectedRow, hd, insert_chunk, chunkKey,
          List.map_append]
        simp [List.append_assoc, chunkKey]
      · rw [h2]
        simp only [List.filterMap_cons, expectedText, hd]
        simp [List.append_assoc]

/-! ## Claim C2 — the one-changed-chunk end-to-end scenario (corrected)

The run of the scenario itself matches the claim on `chunksAdded`,
`chunksUpdated` and the single one-element embedding batch, but
`chunksDeactivated` is `1` (the superseded old row at the changed ordinal is
counted as deactivated) and the diff reports the four unchanged ordinals as
`removed` (they have no rows under version 2), not `unchanged`. -/

/-- C2 counterexample: in the exact scenario of the claim the summary's
`chunks_deactivated` is not `0` and the diff's `unchanged` count is not
`4`. -/
theorem c2_counterexample_scenario :
    c2_summary2.chunks_added = 0 ∧ c2_summary2.chunks_updated = 1 ∧
      c2_summary2.chunks_deactivated ≠ 0 ∧
      (c2_diff.map fun r => r.1.changed) = some 1 ∧
      (c2_diff.map fun r => r.1.unchanged) ≠ some 4 := by
  exact ⟨by decide, by decide, by decide, by decide, by decide⟩

/-- C2 amended: the scenario yields `chunksAdded = 0`, `chunksUpdated = 1`,
`chunksDeactivated = 1`, exactly one embed call with the one-element batch
`["X"]`, and `diff(path, 1, 2)` reporting one `changed`, four `removed` and
zero `unchanged` ordinals. -/
theorem c2_amended_scenario :
    c2_summary1 = ⟨1, 1, 0, 5, 0, 0, 1⟩ ∧
      c2_summary2 = ⟨1, 1, 0, 0, 1, 1, 1⟩ ∧
      c2_batches2 = [[['X']]] ∧
      (c2_diff.map fun r => r.1) = some ⟨0, 1, 4, 0, 5⟩ ∧
      (c2_diff.map fun r => r.2) =
        some [(0, .removed), (1, .removed), (2, .changed), (3, .removed),
              (4, .removed)] := by
  exact ⟨by decide, by decide, by decide, by decide, by decide⟩

/-! ## Claim C7 — re-ingesting an unchanged corpus is a no-op (confirmed) -/

/-- An ineligible file (hidden or wrong extension) is skipped before any
counting. -/
theorem processFile_skip {fp : Str → Str} {c o now : Nat}
    {existing0 : String → Option DocRow} {st : IngestSt} {f : FileEntry}
    (h : eligible f = false) :
    processFile fp c o now existing0 st f = .ok st := by
  cases hp : ".".data.isPrefixOf f.fn.data with
  | true => simp [processFile, hp]
  | false =>
    have hs : ((".md".data.isSuffixOf f.fn.data) ||
        (".txt".data.isSuffixOf f.fn.data)) = false := by
      revert h
      unfold eligible
      rw [hp]
      simp
    simp [processFile, hp, hs]

/-- An eligible file whose stored fingerprint matches the text's fingerprint
only bumps the scanned and unchanged counters. -/
theorem processFile_unchanged {fp : Str → Str} {c o now : Nat}
    {existing0 : String → Option DocRow} {st : IngestSt} {f : FileEntry}
    {txt : Str} {d : DocRow}
    (hel : eligible f = true) (hr : f.read = .ok txt)
    (hx : existing0 f.rel = some d) (hh : d.doc_hash = fp txt) :
    processFile fp c o now existing0 st f =
      .ok { st with summary :=
        { st.summary with
            docs_scanned := st.summary.docs_scanned + 1,
            docs_unchanged := st.summary.docs_unchanged + 1 } } := by
  have hp : ".".data.isPrefixOf f.fn.data = false := by
    revert hel
    unfold eligible
    cases ".".data.isPrefixOf f.fn.data <;> simp
  have hs : ((".md".data.isSuffixOf f.fn.data) ||
      (".txt".data.isSuffixOf f.fn.data)) = true := by
    revert hel
    unfold eligible
    rw [hp]
    simp
  simp [processFile, hp, hs, hr, hx, hh]

/-- Loop form of the no-op property: if every eligible corpus file's stored
fingerprint matches, the loop only adds the eligible-file count to the
scanned and unchanged counters. -/
theorem ingestLoop_unchanged {fp : Str → Str} {c o now : Nat}
    {existing0 : String → Option DocRow} :
    ∀ (corpus : List FileEntry) (st : IngestSt),
      (∀ f ∈ corpus, eligible f = true →
        ∃ txt d, f.read = .ok txt ∧ existing0 f.rel = some d ∧
          d.doc_hash = fp txt) →
      ingestLoop fp c o now existing0 corpus st =
        .ok { st with summary :=
          { st.summary with
              docs_scanned :=
                st.summary.docs_scanned + corpus.countP (fun f => eligible f),
              docs_unchanged :=
                st.summary.docs_unchanged + corpus.countP (fun f => eligible f) } } := by
  intro corpus
  induction corpus with
  | nil =>
    intro st _
    obtain ⟨⟨s1, s2, s3, s4, s5, s6, s7⟩, sdb, six, sb⟩ := st
    simp [ingestLoop]
  | cons f fs ih =>
    intro st hyp
    cases hel : eligible f with
    | false =>
      have hloop : ingestLoop fp c o now existing0 (f :: fs) st =
          ingestLoop fp c o now existing0 fs st := by
        simp only [ingestLoop, processFile_skip hel]
      rw [hloop, ih st (fun g hg => hyp g (List.mem_cons_of_mem f hg))]
      simp [List.countP_cons, hel]
    | true =>
      obtain ⟨txt, d, hr, hx, hh⟩ := hyp f (List.mem_cons_self f fs) hel
      have hloop : ingestLoop fp c o now existing0 (f :: fs) st =
          ingestLoop fp c o now existing0 fs
            { st with summary :=
              { st.summary with
                  docs_scanned := st.summary.docs_scanned + 1,
                  docs_unchanged := st.summary.docs_unchanged + 1 } } := by
        simp only [ingestLoop, processFile_unchanged hel hr hx hh]
      rw [hloop, ih _ (fun g hg => hyp g (List.mem_cons_of_mem f hg))]
      obtain ⟨⟨s1, s2, s3, s4, s5, s6, s7⟩, sdb, six, sb⟩ := st
      simp only [List.countP_cons, hel, if_true, Except.ok.injEq,
        IngestSt.mk.injEq, Summary.mk.injEq]
      refine ⟨⟨?_, ?_, ?_, ?_, ?_, ?_, ?_⟩, ?_, ?_, ?_⟩ <;>
        first
        | trivial
        | omega

/-- C7: re-ingesting a corpus in which every eligible file's stored document
fingerprint equals the fingerprint of its current text is a no-op apart
from counters: the summary counts every eligible file as scanned and
unchanged with `docs_changed = 0` and zero embed calls, and the database,
the vector index and the trace of embedding batches are untouched. -/
theorem c7_unchanged_corpus_noop :
    ∀ (fp : Str → Str) (db0 : DBState) (ix0 : VectorState)
      (corpus : List FileEntry) (c o now : Nat),
      (∀ f ∈ corpus, eligible f = true →
        ∃ txt d, f.read = .ok txt ∧ existingDocsGet db0 f.rel = some d ∧
          d.doc_hash = fp txt) →
      ingest_docs fp db0 ix0 corpus c o now =
        .ok (⟨corpus.countP (fun f => eligible f), 0,
              corpus.countP (fun f => eligible f), 0, 0, 0, 0⟩,
             db0, ix0, []) := by
  intro fp db0 ix0 corpus c o now hyp
  unfold ingest_docs
  rw [ingestLoop_unchanged corpus ⟨Summary.zero, db0, ix0, []⟩ hyp]
  simp [Summary.zero, Except.map]

/-- Witness for C7: re-ingesting the (unchanged) second version of the C2
scenario document against the database that already holds it. -/
theorem c7_witness :
    ingest_docs id c2_db2 ⟨[], 0⟩ [c2_file_v2] 1 0 9 =
      .ok (⟨1, 0, 1, 0, 0, 0, 0⟩, c2_db2, ⟨[], 0⟩, []) := by
  have h := c7_unchanged_corpus_noop id c2_db2 ⟨[], 0⟩ [c2_file_v2] 1 0 9
    (by
      intro f hf _
      rw [List.mem_singleton] at hf
      subst hf
      exact ⟨"abXde".data, ⟨1, "e.md", "abXde".data, 2, some 2, 0⟩, rfl,
        by decide, rfl⟩)
  simpa using h

/-! ## Claim C8 — an unreadable file aborts the whole pass (corrected)

`ingest_docs` installs no per-file exception handler: `read_text` tolerates
undecodable bytes (`errors="ignore"`), but a file whose `open` raises an
`OSError` propagates the exception out of the function, aborting the whole
pass with no summary; later files are never processed. -/

/-- C8 counterexample: a corpus whose first eligible file is unreadable
makes the whole pass raise — there is no summary and the readable second
file is never reached, contradicting the claimed skip-and-continue
behaviour. -/
theorem c8_counterexample_unreadable_aborts :
    c8_pass = .error .ioError := by
  decide

/-- C8 amended: when an eligible file's read raises, the whole ingestion
pass aborts with that error — regardless of the database, the index or what
other files follow in the corpus. -/
theorem c8_amended_error_propagates :
    ∀ (fp : Str → Str) (db0 : DBState) (ix0 : VectorState) (f g : FileEntry)
      (c o now : Nat),
      eligible f = true → f.read = .error () →
      ingest_docs fp db0 ix0 [f, g] c o now = .error .ioError := by
  intro fp db0 ix0 f g c o now hel hr
  have hp : ".".data.isPrefixOf f.fn.data = false := by
    revert hel
    unfold eligible
    cases ".".data.isPrefixOf f.fn.data <;> simp
  have hs : ((".md".data.isSuffixOf f.fn.data) ||
      (".txt".data.isSuffixOf f.fn.data)) = true := by
    revert hel
    unfold eligible
    rw [hp]
    simp
  simp [ingest_docs, ingestLoop, processFile, hp, hs, hr, Except.map]

/-- Witness for C8: the amended abort behaviour at the concrete two-file
corpus. -/
theorem c8_witness :
    ingest_docs id DBState.empty ⟨[], 0⟩ [c8_bad_file, c8_good_file] 1 0 0 =
      .error .ioError :=
  c8_amended_error_propagates id DBState.empty ⟨[], 0⟩ c8_bad_file c8_good_file
    1 0 0 (by decide) rfl

end SURag
